import Mathlib

/-!
Verification of the SAMPE fuselage layup optimizer
(`src/code/layup_optimizer.py`).

The module is shallowly embedded: the Python floats are modelled as real
numbers, lists of ply angles as `List ℝ`, and the 3x3 stiffness matrices as
`Matrix (Fin 3) (Fin 3) ℝ`.  The random draws consumed by the simulated
annealing loop are passed in explicitly as inputs, so every function of the
source becomes a deterministic Lean function of its state and its draws.
-/

noncomputable section

/-! ## Material and ply constants (layup_optimizer.py lines 9-36) -/

/-- Longitudinal modulus `E1 = 89e9` (Pa). -/
def E1 : ℝ := 89e9

/-- Transverse modulus `E2 = 8e9` (Pa). -/
def E2 : ℝ := 8e9

/-- Shear modulus `G12 = 4.5e9` (Pa). -/
def G12 : ℝ := 4.5e9

/-- Major Poisson's ratio `nu12 = 0.3`. -/
def nu12 : ℝ := 0.3

/-- Minor Poisson's ratio `nu21 = nu12 * E2 / E1`. -/
def nu21 : ℝ := nu12 * E2 / E1

/-- Denominator `denom = 1 - nu12 * nu21` of the reduced stiffness relations. -/
def denom : ℝ := 1 - nu12 * nu21

/-- Reduced stiffness `Q11 = E1 / denom`. -/
def Q11 : ℝ := E1 / denom

/-- Reduced stiffness `Q22 = E2 / denom`. -/
def Q22 : ℝ := E2 / denom

/-- Reduced stiffness `Q12 = nu12 * E2 / denom`. -/
def Q12 : ℝ := nu12 * E2 / denom

/-- Reduced stiffness `Q66 = G12`. -/
def Q66 : ℝ := G12

/-- Ply thickness `t = 0.001` (m). -/
def t : ℝ := 0.001

/-- Allowed ply orientations in degrees, `allowed_angles = [0, 45, -45, 90]`. -/
def allowed_angles : List ℝ := [0, 45, -45, 90]

/-- Minimum percentage of the full laminate for each orientation class. -/
def minPercent : ℝ := 0.1

/-- Minimum number of plies of the full laminate, `min_full_plies = 4`. -/
def min_full_plies : ℕ := 4

/-- Maximum number of plies of the full laminate, `max_full_plies = 40`. -/
def max_full_plies : ℕ := 40

/-- Minimum half-laminate length, `min_half = min_full_plies // 2`. -/
def min_half : ℕ := min_full_plies / 2

/-- Maximum half-laminate length, `max_half = max_full_plies // 2`. -/
def max_half : ℕ := max_full_plies / 2

/-! ## Ply transform (compute_Qbar, lines 42-64) -/

/-- Degrees to radians, `np.radians`. -/
def radians (deg : ℝ) : ℝ := deg * Real.pi / 180

/-- Transformed reduced stiffness matrix `compute_Qbar` for a ply orientation
given in degrees (layup_optimizer.py lines 42-64). -/
def compute_Qbar (angle_deg : ℝ) : Matrix (Fin 3) (Fin 3) ℝ :=
  let θ := radians angle_deg
  let m := Real.cos θ
  let n := Real.sin θ
  let m2 := m ^ 2
  let n2 := n ^ 2
  let m4 := m ^ 4
  let n4 := n ^ 4
  let m3n := m ^ 3 * n
  let mn3 := m * n ^ 3
  let m2n2 := m2 * n2
  let Qbar11 := Q11 * m4 + 2 * (Q12 + 2 * Q66) * m2n2 + Q22 * n4
  let Qbar12 := (Q11 + Q22 - 4 * Q66) * m2n2 + Q12 * (m4 + n4)
  let Qbar22 := Q11 * n4 + 2 * (Q12 + 2 * Q66) * m2n2 + Q22 * m4
  let Qbar16 := (Q11 - Q12 - 2 * Q66) * m3n - (Q22 - Q12 - 2 * Q66) * mn3
  let Qbar26 := (Q11 - Q12 - 2 * Q66) * mn3 - (Q22 - Q12 - 2 * Q66) * m3n
  let Qbar66 := (Q11 + Q22 - 2 * Q12 - 2 * Q66) * m2n2 + Q66 * (m4 + n4)
  Matrix.of fun i j =>
    match i, j with
    | 0, 0 => Qbar11
    | 0, 1 => Qbar12
    | 0, 2 => Qbar16
    | 1, 0 => Qbar12
    | 1, 1 => Qbar22
    | 1, 2 => Qbar26
    | 2, 0 => Qbar16
    | 2, 1 => Qbar26
    | 2, 2 => Qbar66

theorem radians_zero : radians 0 = 0 := by
  simp [radians]

theorem radians_ninety : radians 90 = Real.pi / 2 := by
  rw [radians]; ring

/-- C9: `compute_Qbar` applied to 0 degrees and to 90 degrees yields matrices
whose shear-coupling terms Qbar16 (row 0, col 2) and Qbar26 (row 1, col 2)
are zero. -/
theorem Qbar_shear_coupling_vanishes :
    compute_Qbar 0 0 2 = 0 ∧ compute_Qbar 0 1 2 = 0 ∧
    compute_Qbar 90 0 2 = 0 ∧ compute_Qbar 90 1 2 = 0 := by
  refine ⟨?_, ?_, ?_, ?_⟩ <;>
    simp [compute_Qbar, radians_zero, radians_ninety, Real.sin_zero,
      Real.cos_pi_div_two, Matrix.of_apply]

/-! ## Laminate integrator (compute_D_matrix, lines 66-80) -/

/-- Model of `np.linspace(start, stop, num)`: the points
`start + i * (stop - start) / (num - 1)` for `i = 0, ..., num - 1`. -/
def linspace (start stop : ℝ) (num : ℕ) : List ℝ :=
  (List.range num).map fun i : ℕ =>
    start + (i : ℝ) * ((stop - start) / ((num - 1 : ℕ) : ℝ))

/-- Bending stiffness matrix `compute_D_matrix` (layup_optimizer.py lines
66-80): z-coordinates from `np.linspace(-h/2, h/2, N+1)`, then
`D += Qbar * (z[i+1]**3 - z[i]**3) / 3.0` over the plies. -/
def compute_D_matrix (full_seq : List ℝ) : Matrix (Fin 3) (Fin 3) ℝ :=
  let N := full_seq.length
  let total_thickness := (N : ℝ) * t
  let z := linspace (-total_thickness / 2) (total_thickness / 2) (N + 1)
  ∑ i ∈ Finset.range N,
    ((z.getD (i + 1) 0 ^ 3 - z.getD i 0 ^ 3) / 3) • compute_Qbar (full_seq.getD i 0)

/-- The D matrix as the spec words it: the sum over plies i of
`Qbar(angle_i) * (z[i+1]^3 - z[i]^3) / 3`, where z is the list of N+1 evenly
spaced ply-boundary coordinates from `-N*t/2` to `+N*t/2`, i.e.
`z i = -N*t/2 + i*t`. -/
def computeD_specFormula (full_seq : List ℝ) : Matrix (Fin 3) (Fin 3) ℝ :=
  let N := full_seq.length
  let z : ℕ → ℝ := fun i => -((N : ℝ) * t) / 2 + i * t
  ∑ i ∈ Finset.range N,
    ((z (i + 1) ^ 3 - z i ^ 3) / 3) • compute_Qbar (full_seq.getD i 0)

theorem linspace_getD (a b : ℝ) (num i : ℕ) (h : i < num) :
    (linspace a b num).getD i 0 = a + i * ((b - a) / ((num - 1 : ℕ) : ℝ)) := by
  have h' : i < ((List.range num).map
      fun j : ℕ => a + (j : ℝ) * ((b - a) / ((num - 1 : ℕ) : ℝ))).length := by
    simpa using h
  rw [linspace, List.getD_eq_getElem _ _ h', List.getElem_map, List.getElem_range]

/-- C1: for every non-empty full sequence, `compute_D_matrix` returns the sum
over plies i of `Qbar(angle_i) * (z[i+1]^3 - z[i]^3) / 3` with z the N+1
evenly spaced ply-boundary coordinates from `-N*t/2` to `+N*t/2`. -/
theorem compute_D_matrix_eq_specFormula (full_seq : List ℝ) (h : full_seq ≠ []) :
    compute_D_matrix full_seq = computeD_specFormula full_seq := by
  have hN : (full_seq.length : ℝ) ≠ 0 := by
    exact_mod_cast (List.length_pos.mpr h).ne'
  simp only [compute_D_matrix, computeD_specFormula]
  refine Finset.sum_congr rfl ?_
  intro i hi
  rw [Finset.mem_range] at hi
  have hz : ∀ j : ℕ, j < full_seq.length + 1 →
      (linspace (-((full_seq.length : ℝ) * t) / 2) ((full_seq.length : ℝ) * t / 2)
        (full_seq.length + 1)).getD j 0 = -((full_seq.length : ℝ) * t) / 2 + j * t := by
    intro j hj
    rw [linspace_getD _ _ _ _ hj]
    have hsub : ((full_seq.length + 1 - 1 : ℕ) : ℝ) = (full_seq.length : ℝ) := by
      norm_num
    rw [hsub]
    have hba : (full_seq.length : ℝ) * t / 2 - -((full_seq.length : ℝ) * t) / 2 =
        (full_seq.length : ℝ) * t := by ring
    rw [hba, mul_comm ((full_seq.length : ℝ)) t, mul_div_assoc, div_self hN, mul_one]
  rw [hz i (by omega), hz (i + 1) (by omega)]

/-- Witness for C1 at the concrete one-ply sequence `[0]`. -/
theorem compute_D_matrix_eq_specFormula_witness :
    ([0] : List ℝ) ≠ [] ∧ compute_D_matrix [0] = computeD_specFormula [0] :=
  ⟨by simp, compute_D_matrix_eq_specFormula [0] (by simp)⟩

/-! ## Deflection metric (laminate_deflection_metric, lines 82-92) -/

/-- Deflection metric `laminate_deflection_metric` (lines 82-92): `1e12` when
`D11 <= 0`, else `1.0 / D11`. -/
def laminate_deflection_metric (full_seq : List ℝ) : ℝ :=
  let D := compute_D_matrix full_seq
  let D11 := D 0 0
  if D11 ≤ 0 then 1e12 else 1 / D11

/-- C7: for every full sequence the deflection metric equals `1/D11` when
`D11 > 0` and equals the sentinel `1e12` when `D11 <= 0`; the function is
total, so the degenerate case never raises. -/
theorem laminate_deflection_metric_eq (full_seq : List ℝ) :
    laminate_deflection_metric full_seq =
      if 0 < compute_D_matrix full_seq 0 0 then 1 / compute_D_matrix full_seq 0 0
      else 1e12 := by
  simp only [laminate_deflection_metric]
  by_cases h : compute_D_matrix full_seq 0 0 ≤ 0
  · rw [if_pos h, if_neg (not_lt.mpr h)]
  · rw [if_neg h, if_pos (lt_of_not_le h)]

/-! ## Weight and penalty (lines 94-150) -/

/-- Weight `laminate_weight` (lines 94-97): number of plies times the per-ply
weight `0.005`. -/
def laminate_weight (full_seq : List ℝ) : ℝ := (full_seq.length : ℝ) * 0.005

/-- Count of the entries of a list equal to `x`: models
`np.sum(np.array(full_seq) == x)` (lines 126-133). -/
def countEq (x : ℝ) : List ℝ → ℕ
  | [] => 0
  | a :: l => (if a = x then 1 else 0) + countEq x l

/-- Symmetry increment of `penalty` (lines 120-123): `1e6` when the first half
differs from the reversed second half. -/
def symmetryPen (full_seq : List ℝ) : ℝ :=
  let half := full_seq.length / 2
  if full_seq.take half = (full_seq.drop half).reverse then 0 else 1e6

/-- Balance increment of `penalty` (lines 125-128):
`1e6 * abs(count_p45 - count_m45)`. -/
def balancePen (full_seq : List ℝ) : ℝ :=
  1e6 * |((countEq 45 full_seq : ℝ) - (countEq (-45) full_seq : ℝ))|

/-- Required ply count `required = int(N * minPercent)` (line 131). -/
def requiredPlies (N : ℕ) : ℕ := ⌊(N : ℝ) * minPercent⌋₊

/-- Minimum-coverage increments of `penalty` (lines 130-141), one per
orientation class. -/
def coveragePen (full_seq : List ℝ) : ℝ :=
  let required := requiredPlies full_seq.length
  let count_0 := countEq 0 full_seq
  let count_90 := countEq 90 full_seq
  let count_45_total := countEq 45 full_seq + countEq (-45) full_seq
  (if count_0 < required then 1e6 * ((required : ℝ) - (count_0 : ℝ)) else 0) +
    (if count_90 < required then 1e6 * ((required : ℝ) - (count_90 : ℝ)) else 0) +
    (if count_45_total < required then
      1e6 * ((required : ℝ) - (count_45_total : ℝ)) else 0)

/-- Constraint penalty `penalty` (lines 111-142), the sum of the three
accumulated increments. -/
def penalty (full_seq : List ℝ) : ℝ :=
  symmetryPen full_seq + balancePen full_seq + coveragePen full_seq

/-- Objective on a full sequence, `laminate_objective` (lines 99-105). -/
def laminate_objective (full_seq : List ℝ) : ℝ :=
  laminate_deflection_metric full_seq + laminate_weight full_seq + penalty full_seq

/-- Objective on a half sequence, `objective` (lines 144-150): mirror the half
sequence and evaluate `laminate_objective`. -/
def objective (half_seq : List ℝ) : ℝ :=
  laminate_objective (half_seq ++ half_seq.reverse)

theorem symmetryPen_nonneg (l : List ℝ) : 0 ≤ symmetryPen l := by
  simp only [symmetryPen]
  split_ifs <;> norm_num

theorem symmetryPen_eq_zero_iff (l : List ℝ) :
    symmetryPen l = 0 ↔ l.take (l.length / 2) = (l.drop (l.length / 2)).reverse := by
  simp only [symmetryPen]
  split_ifs with h
  · simp [h]
  · constructor
    · intro h0
      norm_num at h0
    · intro h0
      exact absurd h0 h

theorem balancePen_nonneg (l : List ℝ) : 0 ≤ balancePen l :=
  mul_nonneg (by norm_num) (abs_nonneg _)

theorem balancePen_eq_zero_iff (l : List ℝ) :
    balancePen l = 0 ↔ countEq 45 l = countEq (-45) l := by
  rw [balancePen, mul_eq_zero]
  constructor
  · rintro (h | h)
    · norm_num at h
    · rw [abs_eq_zero, sub_eq_zero] at h
      exact_mod_cast h
  · intro h
    right
    rw [abs_eq_zero, sub_eq_zero]
    exact_mod_cast h

theorem covTerm_nonneg (c r : ℕ) :
    0 ≤ (if c < r then (1e6 : ℝ) * ((r : ℝ) - (c : ℝ)) else 0) := by
  split_ifs with h
  · have hc : (c : ℝ) < (r : ℝ) := by exact_mod_cast h
    have h1 : (0 : ℝ) ≤ (r : ℝ) - (c : ℝ) := by linarith
    have h2 : (0 : ℝ) ≤ 1e6 := by norm_num
    exact mul_nonneg h2 h1
  · exact le_refl 0

theorem covTerm_eq_zero_iff (c r : ℕ) :
    (if c < r then (1e6 : ℝ) * ((r : ℝ) - (c : ℝ)) else 0) = 0 ↔ r ≤ c := by
  split_ifs with h
  · have hc : ¬ r ≤ c := not_le.mpr h
    constructor
    · intro h0
      exfalso
      rcases mul_eq_zero.mp h0 with h1 | h1
      · norm_num at h1
      · rw [sub_eq_zero] at h1
        have : r = c := by exact_mod_cast h1
        omega
    · intro h0
      exact absurd h0 hc
  · simp [not_lt.mp h]

theorem coveragePen_nonneg (l : List ℝ) : 0 ≤ coveragePen l := by
  simp only [coveragePen]
  exact add_nonneg (add_nonneg (covTerm_nonneg _ _) (covTerm_nonneg _ _))
    (covTerm_nonneg _ _)

theorem coveragePen_eq_zero_iff (l : List ℝ) :
    coveragePen l = 0 ↔
      requiredPlies l.length ≤ countEq 0 l ∧
      requiredPlies l.length ≤ countEq 90 l ∧
      requiredPlies l.length ≤ countEq 45 l + countEq (-45) l := by
  simp only [coveragePen]
  rw [add_eq_zero_iff_of_nonneg
      (add_nonneg (covTerm_nonneg _ _) (covTerm_nonneg _ _)) (covTerm_nonneg _ _),
    add_eq_zero_iff_of_nonneg (covTerm_nonneg _ _) (covTerm_nonneg _ _),
    covTerm_eq_zero_iff, covTerm_eq_zero_iff, covTerm_eq_zero_iff]
  tauto

/-- C3 (amended): `penalty` is nonnegative, and zero exactly when the full
sequence is symmetric (first half equals reversed second half), balanced
(count of +45 equals count of -45) and each of the three orientation classes
reaches `floor(N * minPercent)` plies; each violated constraint contributes a
strictly positive increment proportional to its violation magnitude. -/
theorem penalty_eq_zero_iff (full_seq : List ℝ) :
    0 ≤ penalty full_seq ∧
      (penalty full_seq = 0 ↔
        full_seq.take (full_seq.length / 2) =
            (full_seq.drop (full_seq.length / 2)).reverse ∧
          countEq 45 full_seq = countEq (-45) full_seq ∧
          requiredPlies full_seq.length ≤ countEq 0 full_seq ∧
          requiredPlies full_seq.length ≤ countEq 90 full_seq ∧
          requiredPlies full_seq.length ≤
            countEq 45 full_seq + countEq (-45) full_seq) := by
  constructor
  · exact add_nonneg (add_nonneg (symmetryPen_nonneg _) (balancePen_nonneg _))
      (coveragePen_nonneg _)
  · rw [penalty,
      add_eq_zero_iff_of_nonneg
        (add_nonneg (symmetryPen_nonneg _) (balancePen_nonneg _))
        (coveragePen_nonneg _),
      add_eq_zero_iff_of_nonneg (symmetryPen_nonneg _) (balancePen_nonneg _),
      symmetryPen_eq_zero_iff, balancePen_eq_zero_iff, coveragePen_eq_zero_iff]
    tauto

theorem requiredPlies_four : requiredPlies 4 = 0 := by
  rw [requiredPlies, Nat.floor_eq_zero, minPercent]
  norm_num

/-- C3 counterexample: the full sequence `[45, -45, 0, 0]` is balanced and
meets all three coverage minimums (required count is 0 for N = 4), yet its
penalty is strictly positive, because the symmetry increment fires. -/
theorem penalty_zero_iff_counterexample :
    countEq 45 [45, -45, 0, 0] = countEq (-45) [45, -45, 0, 0] ∧
      requiredPlies ([45, -45, 0, 0] : List ℝ).length ≤ countEq 0 [45, -45, 0, 0] ∧
      requiredPlies ([45, -45, 0, 0] : List ℝ).length ≤ countEq 90 [45, -45, 0, 0] ∧
      requiredPlies ([45, -45, 0, 0] : List ℝ).length ≤
        countEq 45 [45, -45, 0, 0] + countEq (-45) [45, -45, 0, 0] ∧
      0 < penalty [45, -45, 0, 0] := by
  have hlen : ([45, -45, 0, 0] : List ℝ).length = 4 := by simp
  have hreq : requiredPlies ([45, -45, 0, 0] : List ℝ).length = 0 := by
    rw [hlen, requiredPlies_four]
  have hsym : symmetryPen [45, -45, 0, 0] = 1e6 := by
    simp only [symmetryPen]
    rw [if_neg]
    norm_num
  have hbal : balancePen [45, -45, 0, 0] = 0 := by
    simp only [balancePen]
    norm_num [countEq]
  have hcov : coveragePen [45, -45, 0, 0] = 0 := by
    simp only [coveragePen]
    rw [hreq]
    norm_num
  refine ⟨by norm_num [countEq], by rw [hreq]; omega, by rw [hreq]; omega,
    by rw [hreq]; omega, ?_⟩
  rw [penalty, hsym, hbal, hcov]
  norm_num

/-- C4: for every half-sequence, the mirrored full sequence
`half ++ reverse half` that `objective` evaluates satisfies the symmetry
check of `penalty` (`full[:half] == reverse(full[half:])`), so the
symmetry-violation branch contributes zero. -/
theorem objective_full_symmetric (half_seq : List ℝ) :
    (half_seq ++ half_seq.reverse).take ((half_seq ++ half_seq.reverse).length / 2) =
        ((half_seq ++ half_seq.reverse).drop
          ((half_seq ++ half_seq.reverse).length / 2)).reverse ∧
      symmetryPen (half_seq ++ half_seq.reverse) = 0 := by
  have hlen : (half_seq ++ half_seq.reverse).length / 2 = half_seq.length := by
    rw [List.length_append, List.length_reverse]
    omega
  have h1 : (half_seq ++ half_seq.reverse).take
      ((half_seq ++ half_seq.reverse).length / 2) = half_seq := by
    rw [hlen]
    exact List.take_left _ _
  have h2 : (half_seq ++ half_seq.reverse).drop
      ((half_seq ++ half_seq.reverse).length / 2) = half_seq.reverse := by
    rw [hlen]
    exact List.drop_left _ _
  have hsym : (half_seq ++ half_seq.reverse).take
      ((half_seq ++ half_seq.reverse).length / 2) =
      ((half_seq ++ half_seq.reverse).drop
        ((half_seq ++ half_seq.reverse).length / 2)).reverse := by
    rw [h1, h2, List.reverse_reverse]
  refine ⟨hsym, ?_⟩
  simp only [symmetryPen]
  rw [if_pos hsym]

/-! ## Simulated annealing engine (simulated_annealing, lines 156-219)

The three random draws of one iteration (the move kind, the position, the
replacement angle) and the uniform acceptance draw `random.random()` are
passed in as one explicit `MoveInput`, so one loop iteration becomes the
deterministic function `annealStep` of the state and the draws. -/

/-- The move kinds of the variable-length search (lines 175-198). -/
inductive Move where
  | change
  | insert
  | delete
deriving DecidableEq

/-- The random draws one annealing iteration consumes: the index into the
legal-move list, the position draw, the angle draw, and the uniform
acceptance draw `r` of `random.random()`. -/
structure MoveInput where
  moveIdx : ℕ
  posIdx : ℕ
  angleIdx : ℕ
  r : ℝ

/-- The search state of `simulated_annealing`: current half-sequence and
objective, best-so-far half-sequence and objective, temperature. -/
structure SAState where
  current_half : List ℝ
  current_obj : ℝ
  best_half : List ℝ
  best_obj : ℝ
  T : ℝ

/-- Legal move kinds for a half-sequence of length `len` (lines 175-179):
`change` always, `insert` iff `len < max_half`, `delete` iff
`len > min_half`. -/
def legalMoves (len : ℕ) : List Move :=
  [Move.change] ++ (if len < max_half then [Move.insert] else []) ++
    (if min_half < len then [Move.delete] else [])

/-- One proposed candidate half-sequence (lines 180-198): pick the move kind
from the legal list, then apply it at the drawn position.  `random.choice`
and `random.randint` are modelled by reducing the drawn natural number
modulo the size of the range it is drawn from. -/
def proposeMove (half : List ℝ) (inp : MoveInput) : List ℝ :=
  let moves := legalMoves half.length
  match moves.getD (inp.moveIdx % moves.length) Move.change with
  | Move.change =>
      let idx := inp.posIdx % half.length
      let choices := allowed_angles.filter fun a => a ≠ half.getD idx 0
      half.set idx (choices.getD (inp.angleIdx % choices.length) 0)
  | Move.insert =>
      let idx := inp.posIdx % (half.length + 1)
      half.insertIdx idx
        (allowed_angles.getD (inp.angleIdx % allowed_angles.length) 0)
  | Move.delete =>
      half.eraseIdx (inp.posIdx % half.length)

/-- Metropolis acceptance and best-so-far update (lines 200-209): accept when
`delta < 0` or `r < exp(-delta / T)`; on acceptance the candidate becomes
current and, when it improves on the best, also the best. -/
def annealAccept (s : SAState) (candidate_half : List ℝ) (r : ℝ) : SAState :=
  let candidate_obj := objective candidate_half
  let delta := candidate_obj - s.current_obj
  if delta < 0 ∨ r < Real.exp (-delta / s.T) then
    { current_half := candidate_half
      current_obj := candidate_obj
      best_half := if candidate_obj < s.best_obj then candidate_half else s.best_half
      best_obj := if candidate_obj < s.best_obj then candidate_obj else s.best_obj
      T := s.T }
  else s

/-- One full iteration of the annealing loop (lines 174-212): propose a
candidate, apply Metropolis acceptance, then cool `T *= cooling_rate`. -/
def annealStep (cooling_rate : ℝ) (s : SAState) (inp : MoveInput) : SAState :=
  let s' := annealAccept s (proposeMove s.current_half inp) inp.r
  { current_half := s'.current_half
    current_obj := s'.current_obj
    best_half := s'.best_half
    best_obj := s'.best_obj
    T := s.T * cooling_rate }

/-- Initial search state (lines 166-171): best copies current, `T` is the
initial temperature.  The random initial half-sequence is the argument. -/
def initState (half : List ℝ) (initial_temp : ℝ) : SAState :=
  { current_half := half
    current_obj := objective half
    best_half := half
    best_obj := objective half
    T := initial_temp }

/-- The whole annealing loop (lines 173-212) over an explicit list of random
draws, one entry per iteration. -/
def runSA (cooling_rate : ℝ) (s : SAState) (inputs : List MoveInput) : SAState :=
  inputs.foldl (annealStep cooling_rate) s

/-- The objectives of the candidates the loop accepts, in order. -/
def acceptedObjs (cooling_rate : ℝ) (s : SAState) : List MoveInput → List ℝ
  | [] => []
  | inp :: rest =>
      let candidate_obj := objective (proposeMove s.current_half inp)
      let delta := candidate_obj - s.current_obj
      (if delta < 0 ∨ inp.r < Real.exp (-delta / s.T) then [candidate_obj]
        else []) ++
        acceptedObjs cooling_rate (annealStep cooling_rate s inp) rest

theorem annealStep_T (cooling_rate : ℝ) (s : SAState) (inp : MoveInput) :
    (annealStep cooling_rate s inp).T = s.T * cooling_rate := rfl

/-- C2: in every annealing iteration, with `delta` the candidate objective
minus the current objective and `r` the uniform draw, the candidate becomes
the current half-sequence and its objective the current objective exactly
when `delta < 0` or `r < exp(-delta / T)`; otherwise both are unchanged. -/
theorem metropolis_acceptance (cooling_rate : ℝ) (s : SAState) (inp : MoveInput) :
    (annealStep cooling_rate s inp).current_half =
        (if objective (proposeMove s.current_half inp) - s.current_obj < 0 ∨
            inp.r < Real.exp
              (-(objective (proposeMove s.current_half inp) - s.current_obj) / s.T)
          then proposeMove s.current_half inp
          else s.current_half) ∧
      (annealStep cooling_rate s inp).current_obj =
        (if objective (proposeMove s.current_half inp) - s.current_obj < 0 ∨
            inp.r < Real.exp
              (-(objective (proposeMove s.current_half inp) - s.current_obj) / s.T)
          then objective (proposeMove s.current_half inp)
          else s.current_obj) := by
  simp only [annealStep, annealAccept]
  split_ifs <;> exact ⟨rfl, rfl⟩

/-- C5: the best-so-far objective never increases from one iteration to the
next. -/
theorem best_obj_monotone (cooling_rate : ℝ) (s : SAState) (inp : MoveInput) :
    (annealStep cooling_rate s inp).best_obj ≤ s.best_obj := by
  simp only [annealStep, annealAccept]
  split_ifs with hacc himp
  · exact le_of_lt himp
  · exact le_refl _
  · exact le_refl _

theorem legalMoves_length_pos (len : ℕ) : 0 < (legalMoves len).length := by
  rw [legalMoves]
  simp

theorem insert_mem_legalMoves (len : ℕ) (h : Move.insert ∈ legalMoves len) :
    len < max_half := by
  by_contra hc
  rw [legalMoves, if_neg hc] at h
  split_ifs at h <;> simp_all

theorem delete_mem_legalMoves (len : ℕ) (h : Move.delete ∈ legalMoves len) :
    min_half < len := by
  by_contra hc
  rw [legalMoves, if_neg hc] at h
  split_ifs at h <;> simp_all

theorem pickedMove_mem (len : ℕ) (k : ℕ) :
    (legalMoves len).getD (k % (legalMoves len).length) Move.change ∈
      legalMoves len := by
  have hk : k % (legalMoves len).length < (legalMoves len).length :=
    Nat.mod_lt _ (legalMoves_length_pos len)
  rw [List.getD_eq_getElem _ _ hk]
  exact List.getElem_mem hk

/-- The candidate a legal move produces keeps the half length within
`[min_half, max_half]`: `change` preserves the length, `insert` is only
picked below `max_half`, `delete` only above `min_half`. -/
theorem proposeMove_length (half : List ℝ) (inp : MoveInput)
    (hmin : min_half ≤ half.length) (hmax : half.length ≤ max_half) :
    min_half ≤ (proposeMove half inp).length ∧
      (proposeMove half inp).length ≤ max_half := by
  have hmem := pickedMove_mem half.length inp.moveIdx
  simp only [proposeMove]
  cases hM : (legalMoves half.length).getD
      (inp.moveIdx % (legalMoves half.length).length) Move.change with
  | change =>
      rw [List.length_set]
      exact ⟨hmin, hmax⟩
  | insert =>
      rw [hM] at hmem
      have hlt : half.length < max_half := insert_mem_legalMoves _ hmem
      have hidx : inp.posIdx % (half.length + 1) ≤ half.length :=
        Nat.lt_succ_iff.mp (Nat.mod_lt _ (Nat.succ_pos _))
      rw [List.length_insertIdx _ _ hidx]
      omega
  | delete =>
      rw [hM] at hmem
      have hgt : min_half < half.length := delete_mem_legalMoves _ hmem
      have hpos : 0 < half.length := by
        have : 0 < min_full_plies / 2 := by norm_num [min_full_plies]
        calc 0 < min_half := this
          _ < half.length := hgt
      have hidx : inp.posIdx % half.length < half.length := Nat.mod_lt _ hpos
      rw [List.length_eraseIdx, if_pos hidx]
      omega

/-- C6: one annealing iteration keeps the current half-sequence length within
`[min_half, max_half]`: `change` preserves the length, `insert` is legal only
below `max_half`, `delete` only above `min_half`, and a rejected candidate
leaves the current state unchanged. -/
theorem half_length_bounds (cooling_rate : ℝ) (s : SAState) (inp : MoveInput)
    (hmin : min_half ≤ s.current_half.length)
    (hmax : s.current_half.length ≤ max_half) :
    min_half ≤ (annealStep cooling_rate s inp).current_half.length ∧
      (annealStep cooling_rate s inp).current_half.length ≤ max_half := by
  have hc := proposeMove_length s.current_half inp hmin hmax
  simp only [annealStep, annealAccept]
  split_ifs with hacc himp
  · exact hc
  · exact hc
  · exact ⟨hmin, hmax⟩

/-- Witness for C6 at the concrete state with half-sequence `[0, 0]` (length
exactly `min_half`). -/
theorem half_length_bounds_witness :
    min_half ≤ (annealStep 1 (initState [0, 0] 1) ⟨0, 0, 0, 0⟩).current_half.length ∧
      (annealStep 1 (initState [0, 0] 1) ⟨0, 0, 0, 0⟩).current_half.length ≤
        max_half :=
  half_length_bounds 1 (initState [0, 0] 1) ⟨0, 0, 0, 0⟩
    (by simp [initState, min_half, min_full_plies])
    (by simp [initState, max_half, max_full_plies])

theorem annealStep_best_le_current (cooling_rate : ℝ) (s : SAState)
    (inp : MoveInput) (h : s.best_obj ≤ s.current_obj) :
    (annealStep cooling_rate s inp).best_obj ≤
      (annealStep cooling_rate s inp).current_obj := by
  simp only [annealStep, annealAccept]
  split_ifs with hacc himp
  · exact le_refl _
  · exact le_of_not_lt himp
  · exact h

theorem runSA_preserves (cooling_rate : ℝ) (inputs : List MoveInput) :
    ∀ s : SAState, s.best_obj ≤ s.current_obj →
      (runSA cooling_rate s inputs).best_obj ≤
        (runSA cooling_rate s inputs).current_obj := by
  induction inputs with
  | nil => exact fun s h => h
  | cons inp rest ih =>
      exact fun s h => ih _ (annealStep_best_le_current cooling_rate s inp h)

theorem annealStep_best_obj (cooling_rate : ℝ) (s : SAState) (inp : MoveInput) :
    (annealStep cooling_rate s inp).best_obj =
      if objective (proposeMove s.current_half inp) - s.current_obj < 0 ∨
          inp.r < Real.exp
            (-(objective (proposeMove s.current_half inp) - s.current_obj) / s.T)
        then min s.best_obj (objective (proposeMove s.current_half inp))
        else s.best_obj := by
  simp only [annealStep, annealAccept]
  split_ifs with hacc himp
  · exact (min_eq_right (le_of_lt himp)).symm
  · exact (min_eq_left (le_of_not_lt himp)).symm
  · rfl

theorem runSA_best_eq (cooling_rate : ℝ) (inputs : List MoveInput) :
    ∀ s : SAState, (runSA cooling_rate s inputs).best_obj =
      (acceptedObjs cooling_rate s inputs).foldl min s.best_obj := by
  induction inputs with
  | nil => exact fun s => rfl
  | cons inp rest ih =>
      intro s
      have hstep : runSA cooling_rate s (inp :: rest) =
          runSA cooling_rate (annealStep cooling_rate s inp) rest := rfl
      rw [hstep, ih, annealStep_best_obj]
      simp only [acceptedObjs]
      rw [List.foldl_append]
      split_ifs with h
      · rfl
      · rfl

/-- C10: for every run of the annealing loop from an initial state, the
best-so-far objective ends at most the current objective (the invariant holds
after initialization and is preserved by every iteration), and the returned
best objective is the minimum of the initial objective and the objectives of
all accepted candidates. -/
theorem runSA_best_invariant (cooling_rate initial_temp : ℝ) (half : List ℝ)
    (inputs : List MoveInput) :
    (runSA cooling_rate (initState half initial_temp) inputs).best_obj ≤
        (runSA cooling_rate (initState half initial_temp) inputs).current_obj ∧
      (runSA cooling_rate (initState half initial_temp) inputs).best_obj =
        (acceptedObjs cooling_rate (initState half initial_temp) inputs).foldl
          min (objective half) := by
  constructor
  · exact runSA_preserves cooling_rate inputs (initState half initial_temp)
      (le_refl _)
  · exact runSA_best_eq cooling_rate inputs (initState half initial_temp)

/-! ## Configuration validation (and the absence of it) -/

/-- A cooling rate the spec declares invalid: outside the open interval
(0, 1). -/
def coolingRateOutOfRange (cooling_rate : ℝ) : Prop :=
  cooling_rate ≤ 0 ∨ 1 ≤ cooling_rate

/-- C8: `simulated_annealing` performs no configuration validation: with the
out-of-range cooling rate 2 the annealing loop still executes its iteration
(the temperature is multiplied by the cooling rate inside the loop body)
instead of aborting with a configuration error before the loop. -/
theorem sa_no_config_validation :
    coolingRateOutOfRange 2 ∧
      (runSA 2 (initState [0, 0] 1) [⟨0, 0, 0, 0⟩]).T = 2 := by
  constructor
  · right
    norm_num
  · have h1 : runSA 2 (initState [0, 0] 1) [⟨0, 0, 0, 0⟩] =
        annealStep 2 (initState [0, 0] 1) ⟨0, 0, 0, 0⟩ := rfl
    rw [h1, annealStep_T]
    simp [initState]
